import Mathlib

/-!
# Verification of the rust-web-push core pipeline

Shallow embedding of the content-encryption / VAPID / request-assembly core
of the `rust-web-push` crate, together with proofs checking the crate's
natural-language specification against the code.

Conventions used throughout:
* Rust byte buffers (`Vec<u8>`, `&[u8]`) are `List Nat` with every element a
  byte value; machine integers are `Nat`/`Int`.
* Calls into external crates (`ring` ECDH/HKDF/AES, `serde_json`, `chrono`,
  the `http` URI parser) cross the core's boundary; they are passed in as
  explicit oracle functions, so every theorem quantifies over their
  behaviour.  Everything the crate itself computes is embedded concretely.
* Fallible Rust code returns `Except`/`Option`.
-/

namespace WebPush

/-! ## Base64url (URL-safe alphabet, no padding)

Model of `base64::encode_config(_, URL_SAFE_NO_PAD)` used by
`src/http_ece.rs` and `src/vapid/signer.rs`. -/

/-- The RFC 4648 URL-safe alphabet. -/
def b64Alphabet : List Char :=
  "ABCDEFGHIJKLMNOPQRSTUVWXYZabcdefghijklmnopqrstuvwxyz0123456789-_".data

def b64Char (n : Nat) : Char := b64Alphabet.getD n 'A'

/-- Base64url encoding without padding of a byte list. -/
def base64urlChars : List Nat → List Char
  | [] => []
  | [a] => [b64Char (a / 4), b64Char (a % 4 * 16)]
  | [a, b] => [b64Char (a / 4), b64Char (a % 4 * 16 + b / 16), b64Char (b % 16 * 4)]
  | a :: b :: c :: rest =>
      b64Char (a / 4) :: b64Char (a % 4 * 16 + b / 16) ::
        b64Char (b % 16 * 4 + c / 64) :: b64Char (c % 64) :: base64urlChars rest

def base64urlNoPad (bytes : List Nat) : String := (base64urlChars bytes).asString

/-! ## UTF-8 validation

Model of Rust's `String::from_utf8` (used by
`clients/request_builder.rs::parse_response` to turn a response body into the
synthesised error message): the standard UTF-8 well-formedness table. -/

def isUtf8Cont (b : Nat) : Bool := 0x80 ≤ b && b ≤ 0xBF

/-- Decode a byte list as UTF-8, `none` when the bytes are not valid UTF-8.
The accepted ranges per leading byte follow the standard table Rust's
`String::from_utf8` validates against (no overlong forms, no surrogates,
max U+10FFFF). -/
def utf8Chars : List Nat → Option (List Char)
  | [] => some []
  | b :: rest =>
    if b ≤ 0x7F then
      (utf8Chars rest).map (fun cs => Char.ofNat b :: cs)
    else if 0xC2 ≤ b && b ≤ 0xDF then
      match rest with
      | b2 :: r =>
        if isUtf8Cont b2 then
          (utf8Chars r).map (fun cs =>
            Char.ofNat ((b - 0xC0) * 0x40 + (b2 - 0x80)) :: cs)
        else none
      | [] => none
    else if 0xE0 ≤ b && b ≤ 0xEF then
      match rest with
      | b2 :: b3 :: r =>
        if (if b = 0xE0 then 0xA0 else 0x80) ≤ b2 &&
            b2 ≤ (if b = 0xED then 0x9F else 0xBF) && isUtf8Cont b3 then
          (utf8Chars r).map (fun cs =>
            Char.ofNat ((b - 0xE0) * 0x1000 + (b2 - 0x80) * 0x40 + (b3 - 0x80)) :: cs)
        else none
      | _ => none
    else if 0xF0 ≤ b && b ≤ 0xF4 then
      match rest with
      | b2 :: b3 :: b4 :: r =>
        if (if b = 0xF0 then 0x90 else 0x80) ≤ b2 &&
            b2 ≤ (if b = 0xF4 then 0x8F else 0xBF) && isUtf8Cont b3 && isUtf8Cont b4 then
          (utf8Chars r).map (fun cs =>
            Char.ofNat ((b - 0xF0) * 0x40000 + (b2 - 0x80) * 0x1000 +
              (b3 - 0x80) * 0x40 + (b4 - 0x80)) :: cs)
        else none
      | _ => none
    else none

/-! ## Error model

`clients/request_builder.rs` matches on `WebPushError` variants carrying an
`ErrorInfo`. -/

/-- Modelled from the spec: `ErrorInfo = {code: u16, errno: u16, error: string,
message: string}` (spec section 3).  The Rust struct is consumed by
`src/clients/request_builder.rs` but its declaring file is not among the
staged sources. -/
structure ErrorInfo where
  code : Nat
  errno : Nat
  error : String
  message : String
deriving Repr, DecidableEq

/-- The error taxonomy, variant payloads as `src/clients/request_builder.rs`,
`src/message.rs` and `src/http_ece.rs` use them (spec section 3 lists the
kinds).  Variants irrelevant to any staged call site carry no payload. -/
inductive WebPushError where
  | Unspecified
  | Unauthorized (info : ErrorInfo)
  | BadRequest (info : ErrorInfo)
  | ServerError (retryAfter : Option Nat) (info : ErrorInfo)
  | NotImplemented
  | InvalidUri
  | EndpointNotValid (info : ErrorInfo)
  | EndpointNotFound (info : ErrorInfo)
  | PayloadTooLarge
  | InvalidPackageName
  | InvalidTtl
  | InvalidTopic
  | MissingCryptoKeys
  | InvalidCryptoKeys
  | InvalidResponse
  | InvalidClaims
  | ResponseTooLarge
  | IoError
  | Other (info : ErrorInfo)
deriving Repr, DecidableEq

/-! ## Response classifier

Embedding of `parse_response` (src/clients/request_builder.rs lines 66-90).
The `serde_json::from_slice::<ErrorInfo>` call is external; it enters as the
`parseJson` oracle. -/

/-- `StatusCode::is_success`: the 2xx range. -/
def isSuccess (status : Nat) : Bool := 200 ≤ status && status ≤ 299

/-- `StatusCode::is_server_error`: the 5xx range. -/
def isServerError (status : Nat) : Bool := 500 ≤ status && status ≤ 599

/-- The `ErrorInfo` synthesised by `parse_response` when the body is not a
JSON `ErrorInfo`: code = the status, errno = 999, error = "unknown error",
message = `String::from_utf8(body).unwrap_or("-")`. -/
def synthesizedInfo (status : Nat) (body : List Nat) : ErrorInfo :=
  { code := status
    errno := 999
    error := "unknown error"
    message := match utf8Chars body with
               | some cs => cs.asString
               | none => "-" }

/-- `parse_response` (src/clients/request_builder.rs lines 66-90), match arms
in source order. -/
def parse_response (parseJson : List Nat → Option ErrorInfo) (status : Nat)
    (body : List Nat) : Except WebPushError Unit :=
  if isSuccess status then .ok ()
  else
    let info := (parseJson body).getD (synthesizedInfo status body)
    if status = 401 then .error (.Unauthorized info)
    else if status = 410 then .error (.EndpointNotValid info)
    else if status = 404 then .error (.EndpointNotFound info)
    else if status = 413 then .error .PayloadTooLarge
    else if status = 400 then .error (.BadRequest info)
    else if isServerError status then .error (.ServerError none info)
    else .error (.Other info)

/-- The classifier as the spec's table states it (spec section 4.7), rows in
the table's order, with the amended synthesis clause: on JSON parse failure
the info carries error "unknown error" and the body decoded as UTF-8 as
message, "-" when the body is not valid UTF-8.  (The synthesised errno value
999 is fixed by the code; the spec's table does not constrain it.) -/
def classifyResponseSpec (parseJson : List Nat → Option ErrorInfo) (status : Nat)
    (body : List Nat) : Except WebPushError Unit :=
  let info :=
    match parseJson body with
    | some i => i
    | none =>
      { code := status, errno := 999, error := "unknown error"
        message := match utf8Chars body with
                   | some cs => cs.asString
                   | none => "-" }
  if 200 ≤ status && status ≤ 299 then .ok ()
  else if status = 400 then .error (.BadRequest info)
  else if status = 401 then .error (.Unauthorized info)
  else if status = 404 then .error (.EndpointNotFound info)
  else if status = 410 then .error (.EndpointNotValid info)
  else if status = 413 then .error .PayloadTooLarge
  else if 500 ≤ status && status ≤ 599 then .error (.ServerError none info)
  else .error (.Other info)

/-- C1 (amended): the response classifier is a pure function of
(status, body) matching the spec's status table exactly, for every status and
body and every behaviour of the external JSON parser; on parse failure the
synthesised info has error "unknown error" and the UTF-8 decoding of the raw
body as message, with "-" substituted when the body is not valid UTF-8. -/
theorem parse_response_matches_spec (parseJson : List Nat → Option ErrorInfo)
    (status : Nat) (body : List Nat) :
    parse_response parseJson status body = classifyResponseSpec parseJson status body := by
  unfold parse_response classifyResponseSpec synthesizedInfo isSuccess isServerError
  rcases h : parseJson body with _ | i <;> simp only [Option.getD] <;>
    split_ifs <;> first | rfl | omega

/-- Sanity vectors for the classifier, mirroring the repository's own tests
(src/clients/request_builder.rs lines 160-233): a 2xx is Ok, a parsed 400
body becomes `BadRequest` with that `ErrorInfo`, and a 500 with empty body
synthesises `ServerError` with no retry hint. -/
theorem parse_response_repo_vectors :
    parse_response (fun _ => none) 200 [] = .ok () ∧
    parse_response (fun _ => some ⟨400, 103, "FooBar", "No message found"⟩) 400 [] =
      .error (.BadRequest ⟨400, 103, "FooBar", "No message found"⟩) ∧
    parse_response (fun _ => none) 500 [] =
      .error (.ServerError none ⟨500, 999, "unknown error", ""⟩) ∧
    utf8Chars [116, 101, 115, 116] = some "test".data :=
  ⟨rfl, rfl, rfl, rfl⟩

/-- C1 counterexample: for status 400 and the single-byte body `[0xFF]` —
which is not valid UTF-8, hence not JSON, so the real `serde_json` parse
fails (modelled by the oracle returning `none`) — the code synthesises the
message "-", while the claim demands the raw body as message; no string at
all has `[0xFF]` as its UTF-8 bytes, as `utf8Chars [0xFF] = none` shows. -/
theorem parse_response_dash_counterexample :
    parse_response (fun _ => none) 400 [0xFF] =
      .error (.BadRequest ⟨400, 999, "unknown error", "-"⟩) ∧
    utf8Chars [0xFF] = none := by
  constructor
  · rfl
  · rfl

/-! ## VAPID signer claim handling

Embedding of the claim-defaulting phase of `VapidSigner::sign`
(src/vapid/signer.rs lines 42-62): a `BTreeMap<&str, Value>` of claims, the
`aud` / `exp` defaults, and the JSON serialisation of the map.

The map is modelled as an association list with pairwise-distinct keys
(the `BTreeMap` invariant); the signer only queries and inserts keys, and no
claim checked here depends on the serialisation order of the entries. -/

/-- The fragment of `serde_json::Value` the signer stores in claims. -/
inductive JValue where
  | str (s : String)
  | num (n : Int)
deriving Repr, DecidableEq

abbrev ClaimsMap := List (String × JValue)

/-- `BTreeMap::contains_key`. -/
def bmContains (k : String) : ClaimsMap → Bool
  | [] => false
  | p :: rest => p.1 == k || bmContains k rest

/-- `BTreeMap::get` (first entry with the key; under the distinct-keys
invariant there is at most one). -/
def bmLookup (k : String) : ClaimsMap → Option JValue
  | [] => none
  | p :: rest => if p.1 = k then some p.2 else bmLookup k rest

/-- `BTreeMap::insert`: replace the entry when the key is present, add one
entry otherwise. -/
def bmInsert (k : String) (v : JValue) (m : ClaimsMap) : ClaimsMap :=
  if bmContains k m then m.map (fun p => if p.1 = k then (k, v) else p)
  else m ++ [(k, v)]

/-- How many entries of the map carry the key. -/
def keyCount (k : String) (m : ClaimsMap) : Nat := m.countP (fun p => p.1 == k)

/-- The `BTreeMap` invariant: keys are pairwise distinct. -/
def KeysDistinct (m : ClaimsMap) : Prop := (m.map Prod.fst).Nodup

/-- JSON string escaping as `serde_json` writes it (short escapes for the
named control characters, `\u00XX` for the rest). -/
def escapeJsonChar (c : Char) : List Char :=
  if c = '"' then ['\\', '"']
  else if c = '\\' then ['\\', '\\']
  else if c.toNat = 0x08 then ['\\', 'b']
  else if c.toNat = 0x0C then ['\\', 'f']
  else if c = '\n' then ['\\', 'n']
  else if c = '\r' then ['\\', 'r']
  else if c = '\t' then ['\\', 't']
  else if c.toNat < 0x20 then
    ['\\', 'u', '0', '0', (Nat.toDigits 16 c.toNat).getD 0 '0',
      (Nat.toDigits 16 c.toNat).getLastD '0']
  else [c]

def renderJString (s : String) : String :=
  ('"' :: (s.data.flatMap escapeJsonChar) ++ ['"']).asString

def renderJValue : JValue → String
  | .str s => renderJString s
  | .num n => toString n

/-- `serde_json::to_string` of the claims map: one `"key":value` item per
entry. -/
def renderClaims (m : ClaimsMap) : String :=
  "\x7b" ++ String.intercalate "," (m.map (fun p => renderJString p.1 ++ ":" ++ renderJValue p.2)) ++ "\x7d"

/-- The endpoint as the signer sees it: `http_types::Url`, of which only the
scheme and host cross the signer's boundary. -/
structure UrlModel where
  scheme : String
  host : String
deriving Repr, DecidableEq

/-- The claim-defaulting phase of `VapidSigner::sign` (src/vapid/signer.rs
lines 47-56): insert `aud = "https://" ++ host` when absent and
`exp = now + 12h` when absent.  `nowTs` is `OffsetDateTime::now_utc()` as a
Unix timestamp; adding `Duration::hours(12)` and taking `unix_timestamp`
yields `nowTs + 43200`. -/
def vapidSignClaims (endpoint : UrlModel) (nowTs : Int) (claims : ClaimsMap) : ClaimsMap :=
  let c1 := if bmContains "aud" claims then claims
            else bmInsert "aud" (.str ("https://" ++ endpoint.host)) claims
  if bmContains "exp" c1 then c1
  else bmInsert "exp" (.num (nowTs + 43200)) c1

/-- The base64url-encoded claims segment of the JWT signing input
(src/vapid/signer.rs lines 58-62). -/
def encodedClaimsSegment (endpoint : UrlModel) (nowTs : Int) (claims : ClaimsMap) : String :=
  base64urlNoPad ((renderClaims (vapidSignClaims endpoint nowTs claims)).toUTF8.toList.map (fun b => b.toNat))

/-! ### Association-map lemmas -/

theorem bmContains_iff_find (k : String) (m : ClaimsMap) :
    bmContains k m = true ↔ ∃ p ∈ m, p.1 = k := by
  induction m with
  | nil => simp [bmContains]
  | cons p rest ih => simp [bmContains, ih]

/-- Keys after `bmInsert`'s replace branch are the original keys: the
rewritten entries have key `k`, which was already their key. -/
theorem keys_mapFix (k : String) (v : JValue) (m : ClaimsMap) :
    (m.map (fun p => if p.1 = k then (k, v) else p)).map Prod.fst = m.map Prod.fst := by
  induction m with
  | nil => rfl
  | cons p rest ih =>
    by_cases hp : p.1 = k <;> simp [hp, ih]

theorem bmLookup_mapFix_ne (k k' : String) (v : JValue) (m : ClaimsMap)
    (hne : k' ≠ k) :
    bmLookup k' (m.map (fun p => if p.1 = k then (k, v) else p)) = bmLookup k' m := by
  induction m with
  | nil => rfl
  | cons p rest ih =>
    by_cases hp : p.1 = k
    · have hp' : ¬ p.1 = k' := by rw [hp]; exact Ne.symm hne
      simp [bmLookup, hp, hp', Ne.symm hne, hne, ih]
    · by_cases hp' : p.1 = k'
      · simp [bmLookup, hp, hp', hne]
      · simp [bmLookup, hp, hp', ih]

theorem bmLookup_append_ne (k k' : String) (v : JValue) (m : ClaimsMap)
    (hne : k' ≠ k) : bmLookup k' (m ++ [(k, v)]) = bmLookup k' m := by
  induction m with
  | nil => simp [bmLookup, Ne.symm hne]
  | cons p rest ih =>
    by_cases hp' : p.1 = k'
    · simp [bmLookup, hp']
    · simpa [bmLookup, hp'] using ih

theorem bmLookup_insert_self (k : String) (v : JValue) (m : ClaimsMap) :
    bmLookup k (bmInsert k v m) = some v := by
  unfold bmInsert
  split_ifs with h
  · induction m with
    | nil => simp [bmContains] at h
    | cons p rest ih =>
      by_cases hp : p.1 = k
      · simp [bmLookup, hp]
      · have h' : bmContains k rest = true := by
          simp only [bmContains, Bool.or_eq_true, beq_iff_eq] at h
          exact h.resolve_left hp
        simpa [bmLookup, hp] using ih h'
  · induction m with
    | nil => simp [bmLookup]
    | cons p rest ih =>
      have hp : ¬ p.1 = k := fun hk =>
        h (by simp [bmContains, hk])
      have h' : ¬ bmContains k rest = true := fun hk =>
        h (by simp [bmContains, hk])
      simpa [bmLookup, hp] using ih h'

theorem bmLookup_insert_ne (k k' : String) (v : JValue) (m : ClaimsMap)
    (hne : k' ≠ k) : bmLookup k' (bmInsert k v m) = bmLookup k' m := by
  unfold bmInsert
  split_ifs with h
  · exact bmLookup_mapFix_ne k k' v m hne
  · exact bmLookup_append_ne k k' v m hne

theorem keyCount_eq_one_of_contains (k : String) (m : ClaimsMap)
    (hd : KeysDistinct m) (hc : bmContains k m = true) : keyCount k m = 1 := by
  induction m with
  | nil => simp [bmContains] at hc
  | cons p rest ih =>
    have hd' : KeysDistinct rest := by
      simpa [KeysDistinct, List.nodup_cons] using (List.nodup_cons.1 hd).2
    by_cases hp : p.1 = k
    · have hnk : p.1 ∉ rest.map Prod.fst := (List.nodup_cons.1 hd).1
      have hz : keyCount k rest = 0 := by
        rw [keyCount, List.countP_eq_zero]
        intro q hq
        simp only [beq_iff_eq, decide_eq_true_eq]
        intro hqk
        exact hnk (by rw [hp, ← hqk]; exact List.mem_map_of_mem Prod.fst hq)
      simp [keyCount, List.countP_cons, hp] at hz ⊢
      simpa [keyCount] using hz
    · have hc' : bmContains k rest = true := by
        simp only [bmContains, Bool.or_eq_true, beq_iff_eq] at hc
        exact hc.resolve_left hp
      simpa [keyCount, List.countP_cons, hp] using ih hd' hc'

theorem keyCount_mapFix (k k' : String) (v : JValue) (m : ClaimsMap) :
    keyCount k' (m.map (fun p => if p.1 = k then (k, v) else p)) = keyCount k' m := by
  unfold keyCount
  induction m with
  | nil => rfl
  | cons p rest ih =>
    by_cases hp : p.1 = k <;> simp [List.countP_cons, hp, ih]

theorem keyCount_insert_self (k : String) (v : JValue) (m : ClaimsMap)
    (hd : KeysDistinct m) : keyCount k (bmInsert k v m) = 1 := by
  unfold bmInsert
  split_ifs with h
  · rw [keyCount_mapFix]
    exact keyCount_eq_one_of_contains k m hd h
  · have h0 : keyCount k m = 0 := by
      rw [keyCount, List.countP_eq_zero]
      intro q hq
      simp only [beq_iff_eq, decide_eq_true_eq]
      intro hqk
      exact h ((bmContains_iff_find k m).2 ⟨q, hq, hqk⟩)
    simp only [keyCount, List.countP_append, List.countP_cons] at h0 ⊢
    simp [h0]

theorem keysDistinct_insert (k : String) (v : JValue) (m : ClaimsMap)
    (hd : KeysDistinct m) : KeysDistinct (bmInsert k v m) := by
  unfold bmInsert
  split_ifs with h
  · unfold KeysDistinct
    rw [keys_mapFix]
    exact hd
  · unfold KeysDistinct
    rw [List.map_append]
    simp only [List.map_cons, List.map_nil]
    rw [List.nodup_append]
    refine ⟨hd, List.nodup_singleton k, ?_⟩
    intro a ha
    simp only [List.mem_singleton]
    intro hak
    subst hak
    rcases List.mem_map.1 ha with ⟨p, hp, hpk⟩
    exact absurd ((bmContains_iff_find a m).2 ⟨p, hp, hpk⟩) (by simpa using h)

theorem contains_of_lookup (k : String) (m : ClaimsMap) (v : JValue)
    (hv : bmLookup k m = some v) : bmContains k m = true := by
  induction m with
  | nil => simp [bmLookup] at hv
  | cons p rest ih =>
    by_cases hp : p.1 = k
    · simp [bmContains, hp]
    · simp only [bmLookup, hp, ite_false] at hv
      simp [bmContains, hp, ih hv]

theorem bmContains_mapFix (k k' : String) (v : JValue) (m : ClaimsMap) :
    bmContains k' (m.map (fun p => if p.1 = k then (k, v) else p)) = bmContains k' m := by
  induction m with
  | nil => rfl
  | cons p rest ih =>
    by_cases hp : p.1 = k <;> simp [bmContains, hp, ih]

theorem bmContains_insert_ne (k k' : String) (v : JValue) (m : ClaimsMap)
    (hne : k' ≠ k) : bmContains k' (bmInsert k v m) = bmContains k' m := by
  unfold bmInsert
  split_ifs with h
  · exact bmContains_mapFix k k' v m
  · clear h
    induction m with
    | nil => simp [bmContains, Ne.symm hne]
    | cons p rest ih => simp [bmContains, List.cons_append, ih]

theorem keyCount_insert_ne (k k' : String) (v : JValue) (m : ClaimsMap)
    (hne : k' ≠ k) : keyCount k' (bmInsert k v m) = keyCount k' m := by
  unfold bmInsert
  split_ifs with h
  · exact keyCount_mapFix k k' v m
  · simp [keyCount, List.countP_append, List.countP_cons, Ne.symm hne]

/-- C3 counterexample: for the endpoint `http://google.com` (scheme `http`)
and an empty claims map, the signer's default `aud` is
`"https://google.com"`, not the claimed `"<scheme>://<host>"` =
`"http://google.com"`: the scheme is hardcoded, never read from the
endpoint. -/
theorem vapid_aud_scheme_counterexample :
    bmLookup "aud" (vapidSignClaims ⟨"http", "google.com"⟩ 0 []) =
      some (.str "https://google.com") ∧
    JValue.str "https://google.com" ≠ JValue.str "http://google.com" := by
  constructor
  · rfl
  · simp

/-- C3 (amended): for every claims map with distinct keys: a missing `aud`
defaults to `"https://" ++ host` — the scheme is always `https`, regardless
of the endpoint's scheme — a missing `exp` defaults to `now + 12h` in
seconds since the Unix epoch, caller-supplied `aud` / `exp` are kept
unchanged, and each of `aud` and `exp` ends up exactly once in the map the
claims JSON is encoded from. -/
theorem vapid_sign_claims_defaults (e : UrlModel) (now : Int) (m : ClaimsMap)
    (hd : KeysDistinct m) :
    (bmContains "aud" m = false →
      bmLookup "aud" (vapidSignClaims e now m) = some (.str ("https://" ++ e.host))) ∧
    (bmContains "exp" m = false →
      bmLookup "exp" (vapidSignClaims e now m) = some (.num (now + 43200))) ∧
    (∀ v, bmLookup "aud" m = some v → bmLookup "aud" (vapidSignClaims e now m) = some v) ∧
    (∀ v, bmLookup "exp" m = some v → bmLookup "exp" (vapidSignClaims e now m) = some v) ∧
    keyCount "aud" (vapidSignClaims e now m) = 1 ∧
    keyCount "exp" (vapidSignClaims e now m) = 1 := by
  have hadne : ("aud" : String) ≠ "exp" := by decide
  have hexne : ("exp" : String) ≠ "aud" := by decide
  simp only [vapidSignClaims]
  by_cases haud : bmContains "aud" m = true
  · rw [if_pos haud]
    by_cases hexp : bmContains "exp" m = true
    · rw [if_pos hexp]
      exact ⟨fun hf => absurd haud (by simp [hf]),
             fun hf => absurd hexp (by simp [hf]),
             fun v hv => hv, fun v hv => hv,
             keyCount_eq_one_of_contains _ _ hd haud,
             keyCount_eq_one_of_contains _ _ hd hexp⟩
    · rw [if_neg hexp]
      refine ⟨fun hf => absurd haud (by simp [hf]),
              fun _ => bmLookup_insert_self _ _ _,
              fun v hv => ?_, fun v hv => ?_, ?_, ?_⟩
      · rw [bmLookup_insert_ne _ _ _ _ hadne]; exact hv
      · exact absurd (contains_of_lookup _ _ _ hv) hexp
      · rw [keyCount_insert_ne _ _ _ _ hadne]
        exact keyCount_eq_one_of_contains _ _ hd haud
      · exact keyCount_insert_self _ _ _ hd
  · rw [if_neg haud]
    have hd1 : KeysDistinct (bmInsert "aud" (JValue.str ("https://" ++ e.host)) m) :=
      keysDistinct_insert _ _ _ hd
    have hc1 : bmContains "exp" (bmInsert "aud" (JValue.str ("https://" ++ e.host)) m)
        = bmContains "exp" m := bmContains_insert_ne _ _ _ _ hexne
    by_cases hexp : bmContains "exp" m = true
    · rw [hc1, if_pos hexp]
      refine ⟨fun _ => bmLookup_insert_self _ _ _,
              fun hf => absurd hexp (by simp [hf]),
              fun v hv => absurd (contains_of_lookup _ _ _ hv) haud,
              fun v hv => ?_, ?_, ?_⟩
      · rw [bmLookup_insert_ne _ _ _ _ hexne]; exact hv
      · exact keyCount_insert_self _ _ _ hd
      · rw [keyCount_insert_ne _ _ _ _ hexne]
        exact keyCount_eq_one_of_contains _ _ hd hexp
    · rw [hc1, if_neg hexp]
      refine ⟨fun _ => ?_, fun _ => bmLookup_insert_self _ _ _,
              fun v hv => absurd (contains_of_lookup _ _ _ hv) haud,
              fun v hv => absurd (contains_of_lookup _ _ _ hv) hexp,
              ?_, ?_⟩
      · rw [bmLookup_insert_ne _ _ _ _ hadne]
        exact bmLookup_insert_self _ _ _
      · rw [keyCount_insert_ne _ _ _ _ hadne]
        exact keyCount_insert_self _ _ _ hd
      · exact keyCount_insert_self _ _ _ hd1

/-- C3 witness: the amended claim instantiated at the endpoint
`https://example.com`, `now = 0` and the empty claims map. -/
theorem vapid_sign_claims_defaults_witness :
    (bmContains "aud" ([] : ClaimsMap) = false →
      bmLookup "aud" (vapidSignClaims ⟨"https", "example.com"⟩ 0 []) =
        some (.str ("https://" ++ "example.com"))) ∧
    (bmContains "exp" ([] : ClaimsMap) = false →
      bmLookup "exp" (vapidSignClaims ⟨"https", "example.com"⟩ 0 []) =
        some (.num (0 + 43200))) ∧
    (∀ v, bmLookup "aud" ([] : ClaimsMap) = some v →
      bmLookup "aud" (vapidSignClaims ⟨"https", "example.com"⟩ 0 []) = some v) ∧
    (∀ v, bmLookup "exp" ([] : ClaimsMap) = some v →
      bmLookup "exp" (vapidSignClaims ⟨"https", "example.com"⟩ 0 []) = some v) ∧
    keyCount "aud" (vapidSignClaims ⟨"https", "example.com"⟩ 0 []) = 1 ∧
    keyCount "exp" (vapidSignClaims ⟨"https", "example.com"⟩ 0 []) = 1 :=
  vapid_sign_claims_defaults ⟨"https", "example.com"⟩ 0 []
    (by simp [KeysDistinct])

/-- C9 counterexample: on the empty claims map the signer leaves `sub`
absent — the signed claims do not contain
`sub = "mailto:example@example.com"`. -/
theorem vapid_no_default_sub_counterexample :
    bmLookup "sub" (vapidSignClaims ⟨"https", "example.com"⟩ 0 []) = none ∧
    (none : Option JValue) ≠ some (.str "mailto:example@example.com") := by
  constructor
  · rfl
  · simp

/-- C9 (amended): the signer never inserts a default `sub` claim: for every
endpoint, time and claims map, the `sub` entry of the signed claims is
exactly the caller's (absent when the caller supplied none, unchanged when
supplied). -/
theorem vapid_sub_passthrough (e : UrlModel) (now : Int) (m : ClaimsMap) :
    bmLookup "sub" (vapidSignClaims e now m) = bmLookup "sub" m := by
  have h1 : ("sub" : String) ≠ "aud" := by decide
  have h2 : ("sub" : String) ≠ "exp" := by decide
  simp only [vapidSignClaims]
  by_cases haud : bmContains "aud" m = true
  · rw [if_pos haud]
    by_cases hexp : bmContains "exp" m = true
    · rw [if_pos hexp]
    · rw [if_neg hexp]
      exact bmLookup_insert_ne _ _ _ _ h2
  · rw [if_neg haud]
    have hc1 : bmContains "exp" (bmInsert "aud" (JValue.str ("https://" ++ e.host)) m)
        = bmContains "exp" m := bmContains_insert_ne _ _ _ _ (by decide)
    by_cases hexp : bmContains "exp" m = true
    · rw [hc1, if_pos hexp]
      exact bmLookup_insert_ne _ _ _ _ h1
    · rw [hc1, if_neg hexp,
        bmLookup_insert_ne _ _ _ _ h2, bmLookup_insert_ne _ _ _ _ h1]

/-! ## Content encodings and crypto headers -/

/-- `ContentEncoding` (src/http_ece.rs lines 13-18). -/
inductive ContentEncoding where
  | AesGcm
  | Aes128Gcm
deriving Repr, DecidableEq

/-- Modelled from the spec: the wire tokens `"aesgcm"` / `"aes128gcm"` of
`ContentEncoding::to_str` (spec section 3); the method's declaring file is
not among the staged sources, but the same literals appear as the
`content_encoding` values built in `src/http_ece.rs` lines 132 and
`src/http_ece/mod.rs` lines 91 and 111. -/
def ContentEncoding.toStr : ContentEncoding → String
  | .AesGcm => "aesgcm"
  | .Aes128Gcm => "aes128gcm"

/-- `VapidSignature` (src/vapid/signer.rs lines 23-28): `auth_t` the signed
JWT, `auth_k` the base64url-encoded public key — both already strings. -/
structure VapidSignature where
  auth_t : String
  auth_k : String
deriving Repr, DecidableEq

/-- `Aes128Gcm::headers` (src/http_ece/aes128gcm.rs lines 76-86): with a
VAPID signature a single Authorization header
`vapid t=<auth_t>, k=<auth_k>` — the `auth_k` string is emitted verbatim —
and no headers otherwise. -/
def aes128gcmHeaders (vapid : Option VapidSignature) : List (String × String) :=
  match vapid with
  | some s => [("Authorization", "vapid t=" ++ s.auth_t ++ ", k=" ++ s.auth_k)]
  | none => []

/-- `HttpEce::generate_headers` (src/http_ece.rs lines 140-159), identical in
output to `AesGcm::headers` (src/http_ece/aesgcm.rs lines 88-114): the
aesgcm scheme's `Crypto-Key`, `Encryption` and (with VAPID)
`Authorization` headers. -/
def generateHeaders (publicKey salt : List Nat) (vapid : Option VapidSignature) :
    List (String × String) :=
  let cryptoKey := "dh=" ++ base64urlNoPad publicKey
  match vapid with
  | some s =>
    [("Authorization", "WebPush " ++ s.auth_t),
     ("Crypto-Key", cryptoKey ++ "; p256ecdsa=" ++ s.auth_k),
     ("Encryption", "salt=" ++ base64urlNoPad salt)]
  | none =>
    [("Crypto-Key", cryptoKey),
     ("Encryption", "salt=" ++ base64urlNoPad salt)]

/-- The encrypted payload (`WebPushPayload`, src/message.rs lines 49-56). -/
structure WebPushPayload where
  content : List Nat
  crypto_headers : List (String × String)
  content_encoding : ContentEncoding
deriving Repr, DecidableEq

/-! ## HTTP-ECE encryption pipeline

Embedding of `HttpEce::encrypt` (src/http_ece.rs lines 106-138 and
src/http_ece/mod.rs lines 56-116).  The `ring` crypto calls cross the
boundary and enter as oracles over an abstract RNG state `σ`:
`genKeypair` (`EphemeralPrivateKey::generate` + `compute_public_key`),
`fillRandom16` (`rng.fill` of the 16-byte salt), `agree`
(`agree_ephemeral`, failing with `Unspecified`), and `seal` (the
HKDF + AES-128-GCM sealing of the padded plaintext, whose only failure mode
is `ring::error::Unspecified`).  The padding of the plaintext is pure data
massaging folded into `seal`'s input. -/
structure EceOracle (σ κ : Type) where
  genKeypair : σ → κ × List Nat × σ
  fillRandom16 : σ → List Nat × σ
  agree : κ → List Nat → Option (List Nat)
  sealOp : ContentEncoding → List Nat → List Nat → List Nat → List Nat → List Nat →
    List Nat → Option (List Nat)

/-- `HttpEce::encrypt`: reject plaintexts over 3052 bytes before touching
the RNG; otherwise generate the ephemeral keypair, draw the salt, run the
ECDH agreement and the per-encoding sealing, and attach the encoding's
crypto headers.  Returns the result together with the final RNG state. -/
def httpEceEncrypt {σ κ : Type} (o : EceOracle σ κ) (encoding : ContentEncoding)
    (peerPublicKey peerSecret : List Nat) (vapid : Option VapidSignature)
    (content : List Nat) (s0 : σ) : Except WebPushError WebPushPayload × σ :=
  if content.length > 3052 then (.error .PayloadTooLarge, s0)
  else
    let (priv, publicKey, s1) := o.genKeypair s0
    let (salt, s2) := o.fillRandom16 s1
    match o.agree priv peerPublicKey with
    | none => (.error .Unspecified, s2)
    | some sharedSecret =>
      match o.sealOp encoding peerPublicKey peerSecret sharedSecret publicKey salt content with
      | none => (.error .Unspecified, s2)
      | some sealed =>
        match encoding with
        | .AesGcm => (.ok ⟨sealed, generateHeaders publicKey salt vapid, .AesGcm⟩, s2)
        | .Aes128Gcm => (.ok ⟨sealed, aes128gcmHeaders vapid, .Aes128Gcm⟩, s2)

/-- C2: for every oracle behaviour, encoding (both aesgcm and aes128gcm),
client keys and RNG state: a plaintext longer than 3052 bytes yields
`PayloadTooLarge` with the RNG state untouched (no ephemeral keypair, no
salt draw); a plaintext of at most 3052 bytes passes the length check —
the result is never `PayloadTooLarge` — and encryption proceeds: the
keypair draw and then the salt draw both happen, the final RNG state being
the state after exactly those two draws. -/
theorem http_ece_payload_limit {σ κ : Type} (o : EceOracle σ κ)
    (encoding : ContentEncoding) (peerPublicKey peerSecret : List Nat)
    (vapid : Option VapidSignature) (content : List Nat) (s0 : σ) :
    (content.length > 3052 →
      httpEceEncrypt o encoding peerPublicKey peerSecret vapid content s0 =
        (.error .PayloadTooLarge, s0)) ∧
    (content.length ≤ 3052 →
      (httpEceEncrypt o encoding peerPublicKey peerSecret vapid content s0).1 ≠
        .error .PayloadTooLarge ∧
      (httpEceEncrypt o encoding peerPublicKey peerSecret vapid content s0).2 =
        (o.fillRandom16 (o.genKeypair s0).2.2).2) := by
  constructor
  · intro hbig
    unfold httpEceEncrypt
    rw [if_pos hbig]
  · intro hsmall
    have hns : ¬ content.length > 3052 := by omega
    unfold httpEceEncrypt
    rw [if_neg hns]
    rcases hgen : o.genKeypair s0 with ⟨priv, publicKey, s1⟩
    rcases hfill : o.fillRandom16 s1 with ⟨salt, s2⟩
    simp only [hgen, hfill]
    rcases hag : o.agree priv peerPublicKey with _ | sharedSecret
    · simp [hag]
    · simp only [hag]
      rcases hseal : o.sealOp encoding peerPublicKey peerSecret sharedSecret publicKey salt
          content with _ | sealed
      · simp [hseal]
      · rcases encoding with _ | _ <;> simp [hseal]

/-- C2 witness: the theorem applied twice over a concrete oracle whose RNG
state is a draw counter — once at a 3053-byte plaintext (rejected, zero
draws) and once at the empty plaintext (accepted, two draws). -/
theorem http_ece_payload_limit_witness :
    (httpEceEncrypt
        ⟨fun n => ((), [4], n + 1), fun n => ([0], n + 1),
         fun _ _ => some [1], fun _ _ _ _ _ _ _ => some [2]⟩
        .AesGcm [] [] none (List.replicate 3053 0) 0 =
      (.error .PayloadTooLarge, 0)) ∧
    ((httpEceEncrypt
        ⟨fun n => ((), [4], n + 1), fun n => ([0], n + 1),
         fun _ _ => some [1], fun _ _ _ _ _ _ _ => some [2]⟩
        .AesGcm [] [] none [] 0).1 ≠ .error .PayloadTooLarge ∧
      (httpEceEncrypt
        ⟨fun n => ((), [4], n + 1), fun n => ([0], n + 1),
         fun _ _ => some [1], fun _ _ _ _ _ _ _ => some [2]⟩
        .AesGcm [] [] none [] 0).2 = 2) := by
  refine ⟨?_, ?_⟩
  · exact (http_ece_payload_limit _ _ _ _ _ _ _).1
      (by simp only [List.length_replicate]; omega)
  · exact (http_ece_payload_limit
      ⟨fun n => ((), [4], n + 1), fun n => ([0], n + 1),
       fun _ _ => some [1], fun _ _ _ _ _ _ _ => some [2]⟩
      .AesGcm [] [] none [] 0).2 (by simp)

/-- C4 counterexample: for the VAPID signature `{auth_t:"foo", auth_k:"bar"}`
the aes128gcm Authorization value is `vapid t=foo, k=bar` — the `auth_k`
value verbatim — not `vapid t=foo, k=YmFy`, which carrying
`base64url(auth_k)` (the bytes of "bar" are `[98, 97, 114]`) would
require. -/
theorem aes128gcm_header_k_counterexample :
    aes128gcmHeaders (some ⟨"foo", "bar"⟩) =
      [("Authorization", "vapid t=foo, k=bar")] ∧
    base64urlNoPad [98, 97, 114] = "YmFy" ∧
    "vapid t=foo, k=bar" ≠ "vapid t=foo, k=" ++ base64urlNoPad [98, 97, 114] := by
  refine ⟨rfl, by decide, by decide⟩

/-- Sanity cross-check of the base64url encoder against the repository's own
test vector (src/http_ece.rs `test_headers_with_vapid`): the test's 16-byte
salt encodes to `YMcMuxqRkchXwy7vMwNl1Q`. -/
theorem base64url_repo_salt_vector :
    base64urlNoPad [96, 199, 12, 187, 26, 145, 145, 200, 87, 195, 46, 239, 51, 3, 101, 213] =
      "YMcMuxqRkchXwy7vMwNl1Q" := by decide

/-- C4 (amended): with a VapidSignature the aes128gcm crypto headers are
exactly one Authorization entry `vapid t=<auth_t>, k=<auth_k>`, the `k`
parameter carrying the signature's `auth_k` string verbatim (it already
holds base64url text); with no signature the list is empty. -/
theorem aes128gcm_headers_spec (sig : VapidSignature) :
    aes128gcmHeaders (some sig) =
      [("Authorization", "vapid t=" ++ sig.auth_t ++ ", k=" ++ sig.auth_k)] ∧
    (aes128gcmHeaders (some sig)).length = 1 ∧
    aes128gcmHeaders none = [] :=
  ⟨rfl, rfl, rfl⟩

/-- C5: the aesgcm crypto headers are: with a VapidSignature, Authorization
`WebPush <auth_t>`, Crypto-Key `dh=<base64url(ephemeral_pub)>` with
`; p256ecdsa=<auth_k>` appended, and Encryption `salt=<base64url(salt)>`
(base64url without padding); without a signature, only the Crypto-Key entry
without the p256ecdsa suffix and the Encryption entry — so the
Authorization header and the p256ecdsa suffix appear iff VAPID is
present. -/
theorem aesgcm_headers_spec (publicKey salt : List Nat) :
    (∀ sig : VapidSignature,
      generateHeaders publicKey salt (some sig) =
        [("Authorization", "WebPush " ++ sig.auth_t),
         ("Crypto-Key", "dh=" ++ base64urlNoPad publicKey ++ "; p256ecdsa=" ++ sig.auth_k),
         ("Encryption", "salt=" ++ base64urlNoPad salt)]) ∧
    generateHeaders publicKey salt none =
      [("Crypto-Key", "dh=" ++ base64urlNoPad publicKey),
       ("Encryption", "salt=" ++ base64urlNoPad salt)] ∧
    (∀ vapid : Option VapidSignature,
      ((∃ v, ("Authorization", v) ∈ generateHeaders publicKey salt vapid) ↔ vapid.isSome)) := by
  refine ⟨fun sig => rfl, rfl, fun vapid => ?_⟩
  rcases vapid with _ | sig
  · simp [generateHeaders]
  · simp [generateHeaders]

/-! ## Message builder

Embedding of `WebPushMessageBuilder::build` (src/message.rs lines 171-210).
The `http::Uri` parser and the `ct_codecs` base64url decoder are external;
they enter as the `parseUri` / `decodeB64` oracles.  A parsed `Uri` is kept
opaque (a string). -/

/-- `SubscriptionKeys` (src/message.rs lines 11-16). -/
structure SubscriptionKeys where
  p256dh : String
  auth : String
deriving Repr, DecidableEq

/-- `SubscriptionInfo` (src/message.rs lines 23-28). -/
structure SubscriptionInfo where
  endpoint : String
  keys : SubscriptionKeys
deriving Repr, DecidableEq

/-- `Urgency` (src/message.rs lines 58-66). -/
inductive Urgency where
  | VeryLow
  | Low
  | Normal
  | High
deriving Repr, DecidableEq

/-- The `Display` impl of `Urgency` (src/message.rs lines 68-79): the wire
tokens. -/
def Urgency.toWire : Urgency → String
  | .VeryLow => "very-low"
  | .Low => "low"
  | .Normal => "normal"
  | .High => "high"

/-- `is_base64url_char` (src/message.rs lines 213-215):
`is_ascii_uppercase || is_ascii_lowercase || is_ascii_digit || '-' || '_'`,
the ASCII ranges written out numerically. -/
def is_base64url_char (c : Char) : Bool :=
  (65 ≤ c.toNat && c.toNat ≤ 90) || (97 ≤ c.toNat && c.toNat ≤ 122) ||
    (48 ≤ c.toNat && c.toNat ≤ 57) || c = '-' || c = '_'

/-- Rust `String::len`: the UTF-8 byte count; per-character size by the
scalar-value ranges. -/
def rustUtf8Size (c : Char) : Nat :=
  if c.toNat < 0x80 then 1
  else if c.toNat < 0x800 then 2
  else if c.toNat < 0x10000 then 3
  else 4

def topicLenBytes (t : List Char) : Nat := (t.map rustUtf8Size).sum

/-- The topic validation inside `build` (src/message.rs lines 173-184):
`topic.len() > 32` (bytes) rejects, then every char must be in the
base64url alphabet. -/
def validateTopic : Option (List Char) → Except WebPushError (Option (List Char))
  | none => .ok none
  | some topic =>
    if topicLenBytes topic > 32 then .error .InvalidTopic
    else if topic.all is_base64url_char then .ok (some topic)
    else .error .InvalidTopic

/-- `WebPushMessage` (src/message.rs lines 83-95); the parsed endpoint `Uri`
kept opaque. -/
structure WebPushMessage where
  endpoint : String
  ttl : Nat
  urgency : Option Urgency
  topic : Option (List Char)
  payload : Option WebPushPayload
deriving Repr, DecidableEq

/-- `WebPushMessageBuilder::build` (src/message.rs lines 171-210): parse the
endpoint (`InvalidUri` on failure), validate the topic, and only on the
payload path base64url-decode the client keys (`InvalidCryptoKeys` on
failure) and run the encryptor. -/
def build {σ κ : Type} (parseUri : String → Option String)
    (decodeB64 : String → Option (List Nat)) (o : EceOracle σ κ) (s0 : σ)
    (sub : SubscriptionInfo) (ttl : Nat) (urgency : Option Urgency)
    (topic : Option (List Char)) (payload : Option (ContentEncoding × List Nat))
    (vapid : Option VapidSignature) : Except WebPushError WebPushMessage :=
  match parseUri sub.endpoint with
  | none => .error .InvalidUri
  | some endpoint =>
    match validateTopic topic with
    | .error e => .error e
    | .ok top =>
      match payload with
      | some (encoding, content) =>
        match decodeB64 sub.keys.p256dh with
        | none => .error .InvalidCryptoKeys
        | some p256dh =>
          match decodeB64 sub.keys.auth with
          | none => .error .InvalidCryptoKeys
          | some auth =>
            match (httpEceEncrypt o encoding p256dh auth vapid content s0).1 with
            | .error e => .error e
            | .ok wp => .ok ⟨endpoint, ttl, urgency, top, some wp⟩
      | none => .ok ⟨endpoint, ttl, urgency, top, none⟩

/-- Every base64url-alphabet character is ASCII, so a topic of base64url
characters has as many bytes as characters. -/
theorem topicLenBytes_eq_length_of_base64url (t : List Char)
    (h : t.all is_base64url_char = true) : topicLenBytes t = t.length := by
  induction t with
  | nil => rfl
  | cons c cs ih =>
    simp only [List.all_cons, Bool.and_eq_true] at h
    have hc : c.toNat < 0x80 := by
      have h1 := h.1
      simp only [is_base64url_char, Bool.or_eq_true, Bool.and_eq_true,
        decide_eq_true_eq] at h1
      rcases h1 with ((((⟨_, _⟩ | ⟨_, _⟩) | ⟨_, _⟩) | hy) | hy)
      · omega
      · omega
      · omega
      · subst hy; decide
      · subst hy; decide
    have hsz : rustUtf8Size c = 1 := by
      unfold rustUtf8Size
      rw [if_pos hc]
    have := ih h.2
    simp only [topicLenBytes, List.map_cons, List.sum_cons, List.length_cons, hsz] at this ⊢
    omega

/-- The topic check, characterized in characters: a topic passes iff it has
at most 32 characters, all from the base64url alphabet; otherwise the error
is `InvalidTopic`.  (The source checks the byte length, but base64url
characters are one byte each, and any topic with a multi-byte character
already fails the alphabet check.) -/
theorem validateTopic_spec (t : List Char) :
    (validateTopic (some t) = .ok (some t) ↔
      t.length ≤ 32 ∧ t.all is_base64url_char = true) ∧
    (¬ (t.length ≤ 32 ∧ t.all is_base64url_char = true) →
      validateTopic (some t) = .error .InvalidTopic) := by
  by_cases hall : t.all is_base64url_char = true
  · have hlen := topicLenBytes_eq_length_of_base64url t hall
    by_cases h32 : t.length ≤ 32
    · have : ¬ topicLenBytes t > 32 := by omega
      constructor
      · simp [validateTopic, if_neg this, hall, h32]
      · intro hcon
        exact absurd ⟨h32, hall⟩ hcon
    · have : topicLenBytes t > 32 := by omega
      constructor
      · simp [validateTopic, if_pos this, h32]
      · intro _
        simp [validateTopic, if_pos this]
  · constructor
    · simp only [validateTopic]
      split_ifs with hb
      · simp [hall]
      · simp [hall]
    · intro _
      simp only [validateTopic]
      split_ifs with hb
      · rfl
      · rfl

/-- The encryptor's only failure modes are `PayloadTooLarge` and
`Unspecified` (the `ring` failure); it can never report `InvalidTopic` or a
key error. -/
theorem httpEceEncrypt_error_cases {σ κ : Type} (o : EceOracle σ κ)
    (encoding : ContentEncoding) (peerPublicKey peerSecret : List Nat)
    (vapid : Option VapidSignature) (content : List Nat) (s0 : σ) (e : WebPushError)
    (he : (httpEceEncrypt o encoding peerPublicKey peerSecret vapid content s0).1 =
      .error e) : e = .PayloadTooLarge ∨ e = .Unspecified := by
  unfold httpEceEncrypt at he
  by_cases hb : content.length > 3052
  · rw [if_pos hb] at he
    simp only at he
    cases he
    left; rfl
  · rw [if_neg hb] at he
    rcases hgen : o.genKeypair s0 with ⟨priv, publicKey, s1⟩
    rcases hfill : o.fillRandom16 s1 with ⟨salt, s2⟩
    simp only [hgen, hfill] at he
    rcases hag : o.agree priv peerPublicKey with _ | sharedSecret <;>
      simp only [hag] at he
    · cases he
      right; rfl
    · rcases hseal : o.sealOp encoding peerPublicKey peerSecret sharedSecret publicKey salt
          content with _ | sealed <;> simp only [hseal] at he
      · cases he
        right; rfl
      · rcases encoding with _ | _ <;> simp at he

/-- C6: with a parsable endpoint and no payload, `build` with topic `t`
succeeds iff `t` has at most 32 characters, all in the base64url alphabet
(A-Z a-z 0-9 `-` `_`); otherwise it fails with `InvalidTopic`.  A message
with no topic set is never rejected for its topic: for every payload choice
and oracle behaviour the result is never `InvalidTopic`. -/
theorem build_topic_validation {σ κ : Type} (parseUri : String → Option String)
    (decodeB64 : String → Option (List Nat)) (o : EceOracle σ κ) (s0 : σ)
    (sub : SubscriptionInfo) (ttl : Nat) (urgency : Option Urgency)
    (vapid : Option VapidSignature) (u : String) (t : List Char)
    (hparse : parseUri sub.endpoint = some u) :
    ((∃ msg, build parseUri decodeB64 o s0 sub ttl urgency (some t) none vapid = .ok msg) ↔
      t.length ≤ 32 ∧ t.all is_base64url_char = true) ∧
    (¬ (t.length ≤ 32 ∧ t.all is_base64url_char = true) →
      build parseUri decodeB64 o s0 sub ttl urgency (some t) none vapid =
        .error .InvalidTopic) ∧
    (∀ payload, build parseUri decodeB64 o s0 sub ttl urgency none payload vapid ≠
      .error .InvalidTopic) := by
  refine ⟨?_, ?_, ?_⟩
  · constructor
    · rintro ⟨msg, hmsg⟩
      by_contra hcon
      have := (validateTopic_spec t).2 hcon
      unfold build at hmsg
      rw [hparse, this] at hmsg
      cases hmsg
    · intro hok
      have := (validateTopic_spec t).1.2 hok
      refine ⟨⟨u, ttl, urgency, some t, none⟩, ?_⟩
      unfold build
      rw [hparse, this]
  · intro hbad
    have := (validateTopic_spec t).2 hbad
    unfold build
    rw [hparse, this]
  · intro payload
    unfold build
    rw [hparse]
    have hvt : validateTopic none = .ok none := rfl
    rw [hvt]
    rcases payload with _ | ⟨encoding, content⟩
    · simp
    · rcases hd1 : decodeB64 sub.keys.p256dh with _ | p256dh
      · simp
      · rcases hd2 : decodeB64 sub.keys.auth with _ | auth
        · simp
        · rcases henc : (httpEceEncrypt o encoding p256dh auth vapid content s0).1
            with e | wp
          · simp only [henc]
            intro hcon
            rcases httpEceEncrypt_error_cases o encoding p256dh auth vapid content s0 e
              henc with h | h <;> (subst h; cases hcon)
          · simp [henc]

/-- C6 witness: the theorem at the endpoint `http://google.com`, a failing
key decoder, a concrete oracle, and the ten-character topic `some-topic`,
which the builder accepts; the theorem applied again at the 33-character
topic of `a` repeated, which it rejects with `InvalidTopic`. -/
theorem build_topic_validation_witness :
    ((∃ msg, build (fun _ => some "http://google.com") (fun _ => none)
        (⟨fun n => ((), [4], n + 1), fun n => ([0], n + 1), fun _ _ => some [1],
          fun _ _ _ _ _ _ _ => some [2]⟩ : EceOracle Nat Unit) 0
        ⟨"http://google.com", ⟨"p", "a"⟩⟩ 420 none (some "some-topic".data) none none =
          .ok msg) ↔
      "some-topic".data.length ≤ 32 ∧ "some-topic".data.all is_base64url_char = true) ∧
    (build (fun _ => some "http://google.com") (fun _ => none)
        (⟨fun n => ((), [4], n + 1), fun n => ([0], n + 1), fun _ _ => some [1],
          fun _ _ _ _ _ _ _ => some [2]⟩ : EceOracle Nat Unit) 0
        ⟨"http://google.com", ⟨"p", "a"⟩⟩ 420 none (some (List.replicate 33 'a')) none none =
      .error .InvalidTopic) := by
  refine ⟨?_, ?_⟩
  · exact (build_topic_validation (fun _ => some "http://google.com") (fun _ => none)
      (⟨fun n => ((), [4], n + 1), fun n => ([0], n + 1), fun _ _ => some [1],
        fun _ _ _ _ _ _ _ => some [2]⟩ : EceOracle Nat Unit) 0
      ⟨"http://google.com", ⟨"p", "a"⟩⟩ 420 none none "http://google.com"
      "some-topic".data rfl).1
  · exact (build_topic_validation (fun _ => some "http://google.com") (fun _ => none)
      (⟨fun n => ((), [4], n + 1), fun n => ([0], n + 1), fun _ _ => some [1],
        fun _ _ _ _ _ _ _ => some [2]⟩ : EceOracle Nat Unit) 0
      ⟨"http://google.com", ⟨"p", "a"⟩⟩ 420 none none "http://google.com"
      (List.replicate 33 'a') rfl).2.1
      (by rintro ⟨h33, _⟩; simp only [List.length_replicate] at h33; omega)

/-- C10: with a parsable endpoint and a valid (or absent) topic, `build`
with no payload succeeds and returns a message with `payload = none`, for
every `p256dh` / `auth` key string and every behaviour of the base64url
decoder: the client keys are decoded only on the payload path, so invalid
key material never produces `InvalidCryptoKeys` when no payload is set. -/
theorem build_no_payload_ignores_keys {σ κ : Type} (parseUri : String → Option String)
    (decodeB64 : String → Option (List Nat)) (o : EceOracle σ κ) (s0 : σ)
    (endpoint p256dh auth : String) (ttl : Nat) (urgency : Option Urgency)
    (topic : Option (List Char)) (vapid : Option VapidSignature) (u : String)
    (hparse : parseUri endpoint = some u)
    (htopic : ∀ t, topic = some t →
      t.length ≤ 32 ∧ t.all is_base64url_char = true) :
    build parseUri decodeB64 o s0 ⟨endpoint, ⟨p256dh, auth⟩⟩ ttl urgency topic none vapid =
      .ok ⟨u, ttl, urgency, topic, none⟩ := by
  unfold build
  rw [hparse]
  rcases topic with _ | t
  · rfl
  · rw [(validateTopic_spec t).1.2 (htopic t rfl)]

/-- C10 witness: the theorem at garbage key material (`!!!` is not
base64url) with a decoder failing on every input: the build still succeeds
with no payload. -/
theorem build_no_payload_ignores_keys_witness :
    build (fun _ => some "http://google.com") (fun _ => none)
      (⟨fun n => ((), [4], n + 1), fun n => ([0], n + 1), fun _ _ => some [1],
        fun _ _ _ _ _ _ _ => some [2]⟩ : EceOracle Nat Unit) 0
      ⟨"http://google.com", ⟨"!!!", "???"⟩⟩ 420 none none none none =
      .ok ⟨"http://google.com", 420, none, none, none⟩ :=
  build_no_payload_ignores_keys (fun _ => some "http://google.com") (fun _ => none)
    (⟨fun n => ((), [4], n + 1), fun n => ([0], n + 1), fun _ _ => some [1],
      fun _ _ _ _ _ _ _ => some [2]⟩ : EceOracle Nat Unit) 0
    "http://google.com" "!!!" "???" 420 none none none "http://google.com" rfl
    (fun t ht => by cases ht)

/-! ## Request builder

Embedding of `build_request` (src/clients/request_builder.rs lines 31-63).
The `http::Request` value is a record of method, URI, an ordered header
list and a body; `http` header names compare case-insensitively, so the
model keeps the canonical spellings. -/

structure HttpRequest where
  method : String
  uri : String
  headers : List (String × String)
  body : List Nat
deriving Repr, DecidableEq

/-- The `Urgency` header block: present iff the field is set. -/
def urgencyBlock : Option Urgency → List (String × String)
  | some u => [("Urgency", u.toWire)]
  | none => []

/-- The `Topic` header block: present iff the field is set. -/
def topicBlock : Option (List Char) → List (String × String)
  | some t => [("Topic", t.asString)]
  | none => []

/-- `build_request` (src/clients/request_builder.rs lines 31-63): a POST to
the endpoint; always `TTL`; `Urgency` / `Topic` when set; with a payload
the three content headers, then every crypto header in order, with the
ciphertext as body; otherwise an empty body. -/
def build_request (m : WebPushMessage) : HttpRequest :=
  let hs := [("TTL", toString m.ttl)] ++ urgencyBlock m.urgency ++ topicBlock m.topic
  match m.payload with
  | some p =>
    { method := "POST"
      uri := m.endpoint
      headers := hs ++
        [("Content-Encoding", p.content_encoding.toStr),
         ("Content-Length", toString p.content.length),
         ("Content-Type", "application/octet-stream")] ++ p.crypto_headers
      body := p.content }
  | none =>
    { method := "POST", uri := m.endpoint, headers := hs, body := [] }

/-- C8: the built request is a POST to the message endpoint; it always
carries `TTL` with the decimal ttl value, and `Urgency` / `Topic` exactly
when those fields are set (the blocks are empty otherwise); with a payload
it carries `Content-Encoding` (the scheme token), `Content-Length` (the
ciphertext length), `Content-Type: application/octet-stream`, then every
crypto header pair in its original order as the headers' suffix, with the
ciphertext as body; with no payload the body is empty and only the
TTL/Urgency/Topic headers appear. -/
theorem build_request_spec (m : WebPushMessage) :
    (build_request m).method = "POST" ∧
    (build_request m).uri = m.endpoint ∧
    ("TTL", toString m.ttl) ∈ (build_request m).headers ∧
    (∀ u, m.urgency = some u → urgencyBlock m.urgency = [("Urgency", u.toWire)]) ∧
    (m.urgency = none → urgencyBlock m.urgency = []) ∧
    (∀ t, m.topic = some t → topicBlock m.topic = [("Topic", t.asString)]) ∧
    (m.topic = none → topicBlock m.topic = []) ∧
    (∀ p, m.payload = some p →
      (build_request m).body = p.content ∧
      (build_request m).headers =
        [("TTL", toString m.ttl)] ++ urgencyBlock m.urgency ++ topicBlock m.topic ++
          [("Content-Encoding", p.content_encoding.toStr),
           ("Content-Length", toString p.content.length),
           ("Content-Type", "application/octet-stream")] ++ p.crypto_headers) ∧
    (m.payload = none →
      (build_request m).body = [] ∧
      (build_request m).headers =
        [("TTL", toString m.ttl)] ++ urgencyBlock m.urgency ++ topicBlock m.topic) := by
  rcases m with ⟨endpoint, ttl, urgency, topic, payload⟩
  rcases payload with _ | p
  · refine ⟨rfl, rfl, ?_, ?_, ?_, ?_, ?_, ?_, ?_⟩
    · simp [build_request]
    · rintro u rfl; rfl
    · rintro rfl; rfl
    · rintro t rfl; rfl
    · rintro rfl; rfl
    · rintro p h; cases h
    · intro _; exact ⟨rfl, by simp [build_request]⟩
  · refine ⟨rfl, rfl, ?_, ?_, ?_, ?_, ?_, ?_, ?_⟩
    · simp [build_request]
    · rintro u rfl; rfl
    · rintro rfl; rfl
    · rintro t rfl; rfl
    · rintro rfl; rfl
    · rintro q h
      cases h
      exact ⟨rfl, by simp [build_request]⟩
    · intro h; cases h

/-! ## Retry-After parsing

Embedding of `RetryAfter::from_str` (src/error.rs lines 169-186).  Rust's
`str::parse::<u64>` is embedded concretely (optional leading `+`, at least
one digit, checked arithmetic rejecting values of 2^64 or more); chrono's
`DateTime::parse_from_rfc2822` is external and enters as an oracle yielding
the date's Unix timestamp; time is modelled in whole seconds. -/

/-- The digit loop of `u64::from_str`: checked `acc * 10 + digit` steps. -/
def parseU64Digits : Nat → List Char → Option Nat
  | acc, [] => some acc
  | acc, c :: cs =>
    if c.isDigit then
      if acc * 10 + (c.toNat - 48) < 2 ^ 64 then
        parseU64Digits (acc * 10 + (c.toNat - 48)) cs
      else none
    else none

/-- The character phase of `u64::from_str`: an optional leading `+`, then a
non-empty run of decimal digits. -/
def parseU64Chars : List Char → Option Nat
  | [] => none
  | c :: rest =>
    if c = '+' then
      if rest.isEmpty then none else parseU64Digits 0 rest
    else parseU64Digits 0 (c :: rest)

/-- Rust `str::parse::<u64>`: an optional leading `+`, then a non-empty run
of decimal digits, rejecting on overflow. -/
def parseU64 (s : String) : Option Nat := parseU64Chars s.data

/-- `RetryAfter::from_str`: decimal seconds first; otherwise the RFC 2822
date's timestamp minus now, clamped at zero
(`duration_since(now).unwrap_or(0)`); `none` when neither parse
succeeds. -/
def retryAfterFromStr (parseRfc2822 : String → Option Int) (now : Int)
    (s : String) : Option Nat :=
  match parseU64 s with
  | some seconds => some seconds
  | none => (parseRfc2822 s).map (fun t => if now ≤ t then (t - now).toNat else 0)

/-- The numeric value of a digit string. -/
def natOfDigits (l : List Char) : Nat :=
  l.foldl (fun acc c => acc * 10 + (c.toNat - 48)) 0

/-- The spec's reading of "a decimal integer number of seconds": an optional
leading `+`, then one or more decimal digits, whose value (a `u64` count of
seconds) fits in 64 bits. -/
def IsDecimalSeconds (s : String) (n : Nat) : Prop :=
  ∃ l, (s.data = l ∨ s.data = '+' :: l) ∧ l ≠ [] ∧ (∀ c ∈ l, c.isDigit = true) ∧
    natOfDigits l = n ∧ n < 2 ^ 64

theorem foldl_digits_ge (l : List Char) (acc : Nat) :
    acc ≤ l.foldl (fun a c => a * 10 + (c.toNat - 48)) acc := by
  induction l generalizing acc with
  | nil => exact Nat.le_refl acc
  | cons c cs ih =>
    calc acc ≤ acc * 10 + (c.toNat - 48) := by omega
    _ ≤ cs.foldl (fun a c => a * 10 + (c.toNat - 48)) (acc * 10 + (c.toNat - 48)) := ih _

theorem parseU64Digits_eq_some_iff (l : List Char) (acc n : Nat) (hacc : acc < 2 ^ 64) :
    parseU64Digits acc l = some n ↔
      (∀ c ∈ l, c.isDigit = true) ∧
        l.foldl (fun a c => a * 10 + (c.toNat - 48)) acc = n ∧ n < 2 ^ 64 := by
  induction l generalizing acc with
  | nil =>
    simp only [parseU64Digits, List.foldl_nil, List.not_mem_nil]
    constructor
    · rintro h
      cases h
      exact ⟨fun c h => h.elim, rfl, hacc⟩
    · rintro ⟨_, rfl, _⟩
      rfl
  | cons c cs ih =>
    simp only [parseU64Digits, List.foldl_cons, List.mem_cons]
    by_cases hdig : c.isDigit = true
    · rw [if_pos hdig]
      by_cases hof : acc * 10 + (c.toNat - 48) < 2 ^ 64
      · rw [if_pos hof, ih _ hof]
        constructor
        · rintro ⟨h1, h2, h3⟩
          exact ⟨fun x hx => by rcases hx with rfl | hx; exact hdig; exact h1 x hx, h2, h3⟩
        · rintro ⟨h1, h2, h3⟩
          exact ⟨fun x hx => h1 x (Or.inr hx), h2, h3⟩
      · rw [if_neg hof]
        constructor
        · rintro h; cases h
        · rintro ⟨h1, h2, h3⟩
          have := foldl_digits_ge cs (acc * 10 + (c.toNat - 48))
          omega
    · rw [if_neg hdig]
      constructor
      · rintro h; cases h
      · rintro ⟨h1, _, _⟩
        exact absurd (h1 c (Or.inl rfl)) hdig

/-- `parseU64` succeeds with value `n` exactly when the string is a decimal
seconds value `n` in the spec's sense. -/
theorem parseU64_eq_some_iff (s : String) (n : Nat) :
    parseU64 s = some n ↔ IsDecimalSeconds s n := by
  unfold parseU64 IsDecimalSeconds
  rcases hs : s.data with _ | ⟨c, rest⟩
  · simp only [parseU64Chars]
    constructor
    · rintro h; cases h
    · rintro ⟨l, hl, hne, _⟩
      rcases hl with hl | hl
      · cases hl; simp at hne
      · cases hl
  · simp only [parseU64Chars]
    by_cases hplus : c = '+'
    · subst hplus
      rw [if_pos rfl]
      rcases rest with _ | ⟨d, ds⟩
      · simp only [List.isEmpty_nil, ite_true]
        constructor
        · rintro h; cases h
        · rintro ⟨l, hl, hne, hdig, _⟩
          rcases hl with hl | hl
          · cases hl
            exact absurd (hdig '+' (by simp)) (by decide)
          · cases hl
            exact absurd rfl hne
      · rw [if_neg (by simp)]
        rw [parseU64Digits_eq_some_iff _ _ _ (by positivity)]
        constructor
        · rintro ⟨h1, h2, h3⟩
          exact ⟨d :: ds, Or.inr rfl, by simp, h1, h2, h3⟩
        · rintro ⟨l, hl, hne, hdig, hval, hlt⟩
          rcases hl with hl | hl
          · cases hl
            exact absurd (hdig '+' (by simp)) (by decide)
          · cases hl
            exact ⟨hdig, hval, hlt⟩
    · rw [if_neg hplus]
      rw [parseU64Digits_eq_some_iff _ _ _ (by positivity)]
      constructor
      · rintro ⟨h1, h2, h3⟩
        exact ⟨c :: rest, Or.inl rfl, by simp, h1, h2, h3⟩
      · rintro ⟨l, hl, hne, hdig, hval, hlt⟩
        rcases hl with hl | hl
        · cases hl
          exact ⟨hdig, hval, hlt⟩
        · cases hl
          exact absurd rfl hplus

/-- C7: `RetryAfter::from_str` returns `some d` exactly when the header is a
decimal number of seconds (yielding that many seconds) or — when it is not
decimal — an RFC 2822 date (yielding the date minus the current time,
clamped to zero for past dates); every other string yields `none`; and for
a past date the duration is exactly zero. -/
theorem retry_after_spec (parseRfc2822 : String → Option Int) (now : Int) (s : String) :
    (∀ d, retryAfterFromStr parseRfc2822 now s = some d ↔
      (IsDecimalSeconds s d ∨
        ((∀ n, ¬ IsDecimalSeconds s n) ∧
          ∃ t, parseRfc2822 s = some t ∧
            d = if now ≤ t then (t - now).toNat else 0))) ∧
    (retryAfterFromStr parseRfc2822 now s = none ↔
      (∀ n, ¬ IsDecimalSeconds s n) ∧ parseRfc2822 s = none) ∧
    (∀ t, parseRfc2822 s = some t → t ≤ now → (∀ n, ¬ IsDecimalSeconds s n) →
      retryAfterFromStr parseRfc2822 now s = some 0) := by
  unfold retryAfterFromStr
  rcases hp : parseU64 s with _ | k
  · have hnotdec : ∀ n, ¬ IsDecimalSeconds s n := by
      intro n hdec
      rw [← parseU64_eq_some_iff] at hdec
      rw [hp] at hdec
      cases hdec
    refine ⟨fun d => ?_, ?_, ?_⟩
    · simp only [Option.map_eq_some']
      constructor
      · rintro ⟨t, ht, hd⟩
        exact Or.inr ⟨hnotdec, t, ht, hd.symm⟩
      · rintro (hdec | ⟨_, t, ht, hd⟩)
        · exact absurd hdec (hnotdec d)
        · exact ⟨t, ht, hd.symm⟩
    · simp only [Option.map_eq_none']
      exact ⟨fun h => ⟨hnotdec, h⟩, fun h => h.2⟩
    · intro t ht hpast _
      rw [ht]
      simp only [Option.map_some']
      by_cases hle : now ≤ t
      · have : t = now := le_antisymm hpast hle
        subst this
        simp [hle]
      · simp [hle]
  · have hdec : IsDecimalSeconds s k := (parseU64_eq_some_iff s k).1 hp
    refine ⟨fun d => ?_, ?_, ?_⟩
    · constructor
      · rintro h
        cases h
        exact Or.inl hdec
      · rintro (hd | ⟨hno, _⟩)
        · -- decimal values are unique: both come from parseU64
          rw [← parseU64_eq_some_iff] at hd
          rw [hp] at hd
          cases hd
          rfl
        · exact absurd hdec (hno k)
    · constructor
      · rintro h; cases h
      · rintro ⟨hno, _⟩
        exact absurd hdec (hno k)
    · intro t ht hpast hno
      exact absurd hdec (hno k)

end WebPush
